import Mathlib

/-!
A shallow embedding of the XRename batch file-renaming utility
(`renamer.py`, `xrename.py`) and proofs about its behaviour.

Modelling conventions:
* Python strings are `String`; machine-level details do not arise.
* `pathlib.Path` values are modelled by `PPath` (a parent directory string
  plus a final name component); the filesystem is a list of existing paths.
* Fallible Python code is modelled with `Except PyExc`; `PyExc` names the
  exception classes that matter to the control flow of the source.
* The outcome of the host OS `rename` syscall for the candidate at index
  `i` is supplied by an environment oracle `Nat → Option PyExc`
  (`none` = success, `some e` = the call raises `e`).
-/

/-- The Python exception classes distinguished by the source's `except`
clauses (`renamer.py` catches `(KeyError, ValueError)` around
`str.format`, and a bare `Exception` around the rename call). -/
inductive PyExc where
  | keyError
  | valueError
  | indexError
  | attributeError
  | osError
deriving DecidableEq, Repr

/-- `str.lstrip('.')`: drop leading dot characters. -/
def lstripDot (s : String) : String :=
  ⟨s.toList.dropWhile (fun c => c = '.')⟩

/-- `str.lower()` (character-wise lowercasing, as used on ASCII extensions). -/
def lowerStr (s : String) : String :=
  ⟨s.toList.map Char.toLower⟩

/-- `str.rfind(c)`: index of the last occurrence of `c`, if any. -/
def rfind (c : Char) : List Char → Option Nat
  | [] => none
  | a :: as =>
    match rfind c as with
    | some j => some (j + 1)
    | none => if a = c then some 0 else none

/-- `pathlib.PurePath(name).stem`: the name without its final extension.
The extension exists only when the last dot sits strictly inside the name
(`0 < i < len - 1`), so `.gitignore` and `a.` keep their whole name. -/
def pstem (name : String) : String :=
  match rfind '.' name.toList with
  | none => name
  | some i =>
    if 0 < i ∧ i < name.toList.length - 1 then ⟨name.toList.take i⟩ else name

/-- `pathlib.PurePath(name).suffix`: the final extension with its leading
dot, or `""` when there is none. -/
def psuffix (name : String) : String :=
  match rfind '.' name.toList with
  | none => ""
  | some i =>
    if 0 < i ∧ i < name.toList.length - 1 then ⟨name.toList.drop i⟩ else ""

/-- Zero-padded decimal rendering, as in `f"{n:0{w}d}"` for `n ≥ 0`. -/
def zeroPad (n : Nat) (w : Nat) : String :=
  let s := toString n
  ⟨List.replicate (w - s.length) '0'⟩ ++ s

/-- Truthiness of an optional Python string (`None` and `''` are falsy). -/
def strOptTruthy : Option String → Bool
  | none => false
  | some s => s ≠ ""

/-- Truthiness of an optional Python list (`None` and `[]` are falsy). -/
def listOptTruthy : Option (List String) → Bool
  | none => false
  | some l => l ≠ []

/-! ### A model of the fragment of `str.format` used by the tool

The renamer calls `pattern.format(index=…, original=…, total=…)` with two
integer values and one string value.  The model below implements the
fragment of the format mini-language this call site can exercise:
literal text, `{{`/`}}` escapes, named replacement fields with an
optional format spec of shape `[0][width][d|s]`.  Empty or numeric field
names raise `IndexError` (automatic/positional fields, with no positional
arguments supplied), unknown names raise `KeyError`, stray braces and
ill-formed or type-mismatched specs raise `ValueError`, and attribute or
item access on a resolved field is modelled as `AttributeError`. -/

/-- A value substitutable into a format field: one of the two keyword
argument types at the call site (int or str). -/
inductive FVal where
  | natv (n : Nat)
  | strv (s : String)

/-- A parsed piece of a format string: a literal character or the body of
a `{...}` replacement field. -/
inductive FTok where
  | lit (c : Char)
  | fld (body : List Char)

/-- Tokenizer state: at top level, just after `{`, just after `}`, or
inside a replacement field (accumulating its body in reverse). -/
inductive TkState where
  | top
  | openB
  | closeB
  | inField (acc : List Char)

/-- Tokenize a format string (model of CPython's format-string parser). -/
def tokenizeAux : List Char → TkState → Except PyExc (List FTok)
  | [], .top => .ok []
  | [], .openB => .error .valueError
  | [], .closeB => .error .valueError
  | [], .inField _ => .error .valueError
  | c :: rest, .top =>
    if c = '{' then tokenizeAux rest .openB
    else if c = '}' then tokenizeAux rest .closeB
    else (fun ts => FTok.lit c :: ts) <$> tokenizeAux rest .top
  | c :: rest, .openB =>
    if c = '{' then (fun ts => FTok.lit '{' :: ts) <$> tokenizeAux rest .top
    else if c = '}' then (fun ts => FTok.fld [] :: ts) <$> tokenizeAux rest .top
    else tokenizeAux rest (.inField [c])
  | c :: rest, .closeB =>
    if c = '}' then (fun ts => FTok.lit '}' :: ts) <$> tokenizeAux rest .top
    else .error .valueError
  | c :: rest, .inField acc =>
    if c = '}' then (fun ts => FTok.fld acc.reverse :: ts) <$> tokenizeAux rest .top
    else if c = '{' then .error .valueError
    else tokenizeAux rest (.inField (c :: acc))

/-- Split a field body at the first `:` into field name and format spec. -/
def splitColon : List Char → List Char × Option (List Char)
  | [] => ([], none)
  | c :: rest =>
    if c = ':' then ([], some rest)
    else
      let (n, s) := splitColon rest
      (c :: n, s)

/-- Split a field name at the first attribute/item access (`.` or `[`). -/
def splitAccess : List Char → List Char × List Char
  | [] => ([], [])
  | c :: rest =>
    if c = '.' ∨ c = '[' then ([], c :: rest)
    else
      let (b, a) := splitAccess rest
      (c :: b, a)

/-- Resolve a field name against the keyword arguments
`index=idx, original=orig, total=total` of the call site. -/
def lookupField (idx : Nat) (orig : String) (total : Nat) (name : List Char) :
    Except PyExc FVal :=
  let (base, access) := splitAccess name
  if base.all (fun c => c.isDigit) then
    -- empty or numeric name: automatic/positional field, but no
    -- positional arguments are passed at the call site
    .error .indexError
  else
    let v : Except PyExc FVal :=
      if base = "index".toList then .ok (.natv idx)
      else if base = "original".toList then .ok (.strv orig)
      else if base = "total".toList then .ok (.natv total)
      else .error .keyError
    match v with
    | .error e => .error e
    | .ok v => if access.isEmpty then .ok v else .error .attributeError

/-- Apply a format spec of shape `[0][width][d|s]` to a field value. -/
def applySpec (v : FVal) (spec : List Char) : Except PyExc (List Char) :=
  let (core, typ) : List Char × Option Char :=
    match spec.getLast? with
    | some 'd' => (spec.dropLast, some 'd')
    | some 's' => (spec.dropLast, some 's')
    | _ => (spec, none)
  if !core.all (fun c => c.isDigit) then .error .valueError
  else
    let zero : Bool := core.head? = some '0'
    let width := core.foldl (fun n c => n * 10 + (c.toNat - '0'.toNat)) 0
    match v, typ with
    | .natv _, some 's' => .error .valueError
    | .natv n, _ =>
      let s := (toString n).toList
      .ok (List.replicate (width - s.length) (if zero then '0' else ' ') ++ s)
    | .strv _, some 'd' => .error .valueError
    | .strv s, _ =>
      .ok (s.toList ++ List.replicate (width - s.length) (if zero then '0' else ' '))

/-- Render a token list against the call site's keyword arguments. -/
def renderToks (idx : Nat) (orig : String) (total : Nat) :
    List FTok → Except PyExc (List Char)
  | [] => .ok []
  | .lit c :: rest => (fun r => c :: r) <$> renderToks idx orig total rest
  | .fld body :: rest =>
    let (name, spec) := splitColon body
    match lookupField idx orig total name with
    | .error e => .error e
    | .ok v =>
      match applySpec v (spec.getD []) with
      | .error e => .error e
      | .ok out => (fun r => out ++ r) <$> renderToks idx orig total rest

/-- `pattern.format(index=idx, original=orig, total=total)`. -/
def pyFormat (pattern : String) (idx : Nat) (orig : String) (total : Nat) :
    Except PyExc String :=
  match tokenizeAux pattern.toList .top with
  | .error e => .error e
  | .ok toks =>
    match renderToks idx orig total toks with
    | .error e => .error e
    | .ok out => .ok ⟨out⟩

/-! ### The renamer's configuration and data model (`renamer.py`) -/

/-- The state of a `FileRenamer` after `__init__` (its option fields).
The first field models the `prefix` option (renamed here, the original
name not being available as an identifier in this development). -/
structure Config where
  pre : String
  suffix : String
  add_number : Bool
  new_ext : Option String
  pattern : String
  recursive : Bool
  filter_ext : Option (List String)
  dry_run : Bool

/-- `FileRenamer.__init__`: normalizes `new_ext` and `filter_ext`
(lowercase, leading dots stripped; falsy arguments become `None`). -/
def mkFileRenamer (pre suffix : String) (add_number : Bool)
    (new_ext pattern : String) (recursive : Bool)
    (filter_ext : Option (List String)) (dry_run : Bool) : Config :=
  { pre := pre
    suffix := suffix
    add_number := add_number
    new_ext := if new_ext ≠ "" then some (lstripDot (lowerStr new_ext)) else none
    pattern := pattern
    recursive := recursive
    filter_ext :=
      match filter_ext with
      | some l => if l ≠ [] then some (l.map fun e => lstripDot (lowerStr e)) else none
      | none => none
    dry_run := dry_run }

/-- A filesystem path: parent directory (as a string) and final name
component.  Final name components never contain the separator, so this
split is faithful. -/
structure PPath where
  parent : String
  name : String
deriving DecidableEq, Repr

/-- A directory-enumeration entry: a path together with whether the host
reports it as a regular file (`Path.is_file()`). -/
structure DirEntry where
  path : PPath
  isFile : Bool
deriving DecidableEq, Repr

/-- `FileRenamer._should_process_file`: regular files only, and when a
(truthy) extension filter is configured, the file's extension —
lowercased, leading dot stripped — must be a member of it. -/
def should_process_file (cfg : Config) (e : DirEntry) : Bool :=
  if !e.isFile then false
  else
    if listOptTruthy cfg.filter_ext then
      let file_ext := lstripDot (lowerStr (psuffix e.path.name))
      (cfg.filter_ext.getD []).contains file_ext
    else true

/-- The default (pattern-less) naming rule of
`FileRenamer._generate_new_name`: prefix, then `_`-number, then suffix
around the stem, and the new or original extension. -/
def defaultName (cfg : Config) (stem ext : String) (index total : Nat) : String :=
  let new_stem := stem
  let new_stem := if cfg.pre ≠ "" then cfg.pre ++ new_stem else new_stem
  let new_stem :=
    if cfg.add_number then
      let digits := (toString total).length
      new_stem ++ ("_" ++ zeroPad (index + 1) digits)
    else new_stem
  let new_stem := if cfg.suffix ≠ "" then new_stem ++ cfg.suffix else new_stem
  let new_ext := if strOptTruthy cfg.new_ext then "." ++ cfg.new_ext.getD "" else ext
  new_stem ++ new_ext

/-- `FileRenamer._generate_new_name`.  A truthy pattern is rendered with
`str.format`; `KeyError`/`ValueError` from rendering are caught and the
default rule is used instead; any other exception propagates (modelled
as `Except.error`). -/
def generate_new_name (cfg : Config) (original_name : String)
    (index total : Nat) : Except PyExc String :=
  let stem := pstem original_name
  let ext := psuffix original_name
  if cfg.pattern ≠ "" then
    match pyFormat cfg.pattern index stem total with
    | .ok new_name =>
      if strOptTruthy cfg.new_ext then
        .ok (new_name ++ ("." ++ cfg.new_ext.getD ""))
      else .ok (new_name ++ ext)
    | .error e =>
      if e = .keyError ∨ e = .valueError then
        .ok (defaultName cfg stem ext index total)
      else .error e
  else .ok (defaultName cfg stem ext index total)

/-- `FileRenamer._rename_file`, acting on a filesystem `fs` (the list of
existing paths).  Returns the filesystem after the call and the boolean
the method returns.  `renameExc` is the environment's outcome for the
`Path.rename` syscall (`some e`: it raises, which the method's
`except Exception` catches, returning `False`). -/
def rename_file (cfg : Config) (fs : List PPath) (file_path : PPath)
    (new_name : String) (renameExc : Option PyExc) : List PPath × Bool :=
  if file_path.name = new_name then (fs, false)
  else if (⟨file_path.parent, new_name⟩ : PPath) ∈ fs then (fs, false)
  else if cfg.dry_run then (fs, true)
  else
    match renameExc with
    | some _ => (fs, false)
    | none => ((⟨file_path.parent, new_name⟩ : PPath) :: (fs.filter fun q => q ≠ file_path), true)

/-! ### Sorting (`files.sort()`) -/

/-- Lexicographic comparison of character lists (the order underlying
Python string comparison). -/
def charListLt : List Char → List Char → Bool
  | [], [] => false
  | [], _ :: _ => true
  | _ :: _, [] => false
  | a :: as, b :: bs =>
    if a < b then true
    else if b < a then false
    else charListLt as bs

/-- Strict string comparison `a < b`. -/
def strLtB (a b : String) : Bool := charListLt a.toList b.toList

/-- Non-strict string comparison `a <= b`. -/
def strLeB (a b : String) : Bool := charListLt a.toList b.toList || a == b

/-- Path comparison used by `files.sort()`: full-path lexicographic order
(parent directory first, then the name component). -/
def pathLe (a b : PPath) : Bool :=
  if a.parent = b.parent then strLeB a.name b.name else strLtB a.parent b.parent

/-- One step of insertion sort with respect to `pathLe`. -/
def insertPath (p : PPath) : List PPath → List PPath
  | [] => [p]
  | q :: rest => if pathLe p q then p :: q :: rest else q :: insertPath p rest

/-- `files.sort()`: a comparison sort with respect to `pathLe` (the model
uses insertion sort; only the sorted result is observable). -/
def sortPaths (l : List PPath) : List PPath := l.foldr insertPath []

/-! ### The batch loop (`FileRenamer.rename_files`) -/

/-- A run's mutable state: the filesystem plus the three outcome
counters. -/
structure RunState where
  fs : List PPath
  renamed : Nat
  skipped : Nat
  errors : Nat
deriving DecidableEq, Repr

/-- The result dictionary returned by `rename_files`. -/
structure RenameResult where
  total : Nat
  renamed : Nat
  skipped : Nat
  errors : Nat
deriving DecidableEq, Repr

/-- The body of the `for index, file_path in enumerate(files)` loop:
generate a name (an escaping exception is caught by the loop's
`except` and counted as an error), otherwise attempt the rename and
count the boolean outcome. -/
def processOne (cfg : Config) (total : Nat) (oracle : Nat → Option PyExc)
    (st : RunState) (idx : Nat) (p : PPath) : RunState :=
  match generate_new_name cfg p.name idx total with
  | .error _ => { st with errors := st.errors + 1 }
  | .ok new_name =>
    match rename_file cfg st.fs p new_name (oracle idx) with
    | (fs2, true) => { st with fs := fs2, renamed := st.renamed + 1 }
    | (fs2, false) => { st with fs := fs2, skipped := st.skipped + 1 }

/-- The loop itself, over the remaining candidates from index `idx`. -/
def processFrom (cfg : Config) (total : Nat) (oracle : Nat → Option PyExc) :
    RunState → Nat → List PPath → RunState
  | st, _, [] => st
  | st, idx, p :: rest =>
    processFrom cfg total oracle (processOne cfg total oracle st idx p) (idx + 1) rest

/-- Candidate enumeration and ordering: filter the directory listing
through `_should_process_file`, then sort. -/
def candidateFiles (cfg : Config) (entries : List DirEntry) : List PPath :=
  sortPaths ((entries.filter fun e => should_process_file cfg e).map DirEntry.path)

/-- `FileRenamer.rename_files`: enumerate, sort, process every candidate,
and return the statistics dictionary together with the final
filesystem.  `entries` is the host's directory listing (`iterdir` or
`rglob`, according to `recursive`), `fs0` the set of existing paths, and
`oracle` the per-index outcome of the rename syscall. -/
def rename_files (cfg : Config) (entries : List DirEntry) (fs0 : List PPath)
    (oracle : Nat → Option PyExc) : RenameResult × List PPath :=
  let files := candidateFiles cfg entries
  let total := files.length
  let final := processFrom cfg total oracle ⟨fs0, 0, 0, 0⟩ 0 files
  (⟨total, final.renamed, final.skipped, final.errors⟩, final.fs)

/-! ### The CLI summary (`xrename.py`, `main`) -/

/-- The count printed by the dry-run branch of `main`'s summary
(`"[Preview mode] {result['total']} files are expected to be changed."`). -/
def dryRunSummaryCount (r : RenameResult) : Nat := r.total

/-- The counts printed by the non-dry-run branch of `main`'s summary. -/
def runSummaryCounts (r : RenameResult) : Nat × Nat × Nat :=
  (r.renamed, r.skipped, r.errors)

/-! ### Helper lemmas -/

/-- Each loop iteration adds exactly one to exactly one outcome bucket. -/
theorem processOne_sum (cfg : Config) (total : Nat) (oracle : Nat → Option PyExc)
    (st : RunState) (idx : Nat) (p : PPath) :
    (processOne cfg total oracle st idx p).renamed
      + (processOne cfg total oracle st idx p).skipped
      + (processOne cfg total oracle st idx p).errors
      = st.renamed + st.skipped + st.errors + 1 := by
  unfold processOne
  cases hg : generate_new_name cfg p.name idx total with
  | error e => simp; omega
  | ok nn =>
    dsimp only
    rcases hr : rename_file cfg st.fs p nn (oracle idx) with ⟨fs2, b⟩
    cases b <;> simp <;> omega

/-- Unfolding equation: the loop on an empty candidate list. -/
theorem processFrom_nil (cfg : Config) (total : Nat) (oracle : Nat → Option PyExc)
    (st : RunState) (idx : Nat) :
    processFrom cfg total oracle st idx [] = st := rfl

/-- Unfolding equation: the loop on a non-empty candidate list. -/
theorem processFrom_cons (cfg : Config) (total : Nat) (oracle : Nat → Option PyExc)
    (st : RunState) (idx : Nat) (p : PPath) (rest : List PPath) :
    processFrom cfg total oracle st idx (p :: rest)
      = processFrom cfg total oracle (processOne cfg total oracle st idx p)
          (idx + 1) rest := rfl

/-- The loop adds the number of processed files to the bucket total. -/
theorem processFrom_sum (cfg : Config) (total : Nat) (oracle : Nat → Option PyExc) :
    ∀ (files : List PPath) (st : RunState) (idx : Nat),
    (processFrom cfg total oracle st idx files).renamed
      + (processFrom cfg total oracle st idx files).skipped
      + (processFrom cfg total oracle st idx files).errors
      = st.renamed + st.skipped + st.errors + files.length
  | [], st, idx => by simp [processFrom_nil]
  | p :: rest, st, idx => by
    have ih := processFrom_sum cfg total oracle rest
      (processOne cfg total oracle st idx p) (idx + 1)
    have h1 := processOne_sum cfg total oracle st idx p
    rw [processFrom_cons, List.length_cons]
    omega

/-- In dry-run mode `_rename_file` never touches the filesystem. -/
theorem rename_file_dry (cfg : Config) (fs : List PPath) (p : PPath)
    (nn : String) (exc : Option PyExc) (h : cfg.dry_run = true) :
    (rename_file cfg fs p nn exc).1 = fs := by
  unfold rename_file
  rw [h]
  split_ifs <;> first
  | rfl
  | simp_all

/-- In dry-run mode one loop iteration never touches the filesystem. -/
theorem processOne_dry (cfg : Config) (total : Nat) (oracle : Nat → Option PyExc)
    (st : RunState) (idx : Nat) (p : PPath) (h : cfg.dry_run = true) :
    (processOne cfg total oracle st idx p).fs = st.fs := by
  unfold processOne
  cases hg : generate_new_name cfg p.name idx total with
  | error e => simp
  | ok nn =>
    dsimp only
    rcases hr : rename_file cfg st.fs p nn (oracle idx) with ⟨fs2, b⟩
    have h2 : fs2 = st.fs := by
      have := rename_file_dry cfg st.fs p nn (oracle idx) h
      rw [hr] at this
      exact this
    cases b <;> simp [h2]

/-- In dry-run mode the whole loop never touches the filesystem. -/
theorem processFrom_dry (cfg : Config) (total : Nat) (oracle : Nat → Option PyExc)
    (h : cfg.dry_run = true) :
    ∀ (files : List PPath) (st : RunState) (idx : Nat),
    (processFrom cfg total oracle st idx files).fs = st.fs
  | [], st, idx => rfl
  | p :: rest, st, idx => by
    have ih := processFrom_dry cfg total oracle h rest
      (processOne cfg total oracle st idx p) (idx + 1)
    simp only [processFrom]
    rw [ih, processOne_dry cfg total oracle st idx p h]

/-! ### C1 and C2 -/

/-- C2: for every completed run of `rename_files`, the returned result
satisfies `total = renamed + skipped + errors`, where `total` is the
number of candidate files enumerated. -/
theorem rename_files_count_invariant (cfg : Config) (entries : List DirEntry)
    (fs0 : List PPath) (oracle : Nat → Option PyExc) :
    (rename_files cfg entries fs0 oracle).1.total
      = (rename_files cfg entries fs0 oracle).1.renamed
        + (rename_files cfg entries fs0 oracle).1.skipped
        + (rename_files cfg entries fs0 oracle).1.errors := by
  unfold rename_files
  simp only
  have := processFrom_sum cfg (candidateFiles cfg entries).length oracle
    (candidateFiles cfg entries) ⟨fs0, 0, 0, 0⟩ 0
  simp at this
  omega

/-- C1: if the generated target name equals the file's current name, or a
file already exists at `(parent, newName)`, then the loop iteration for
that candidate leaves the filesystem unchanged (no rename call) and
classifies the file as skipped — never as renamed or error. -/
theorem collision_noop_skipped (cfg : Config) (total : Nat)
    (oracle : Nat → Option PyExc) (st : RunState) (idx : Nat) (p : PPath)
    (new_name : String)
    (hgen : generate_new_name cfg p.name idx total = .ok new_name)
    (h : new_name = p.name ∨ (⟨p.parent, new_name⟩ : PPath) ∈ st.fs) :
    processOne cfg total oracle st idx p = { st with skipped := st.skipped + 1 } := by
  have hr : rename_file cfg st.fs p new_name (oracle idx) = (st.fs, false) := by
    unfold rename_file
    rcases h with h | h
    · simp [h]
    · by_cases hn : p.name = new_name
      · simp [hn]
      · simp [hn, h]
  unfold processOne
  rw [hgen]
  simp only
  rw [hr]

/-- Witness for C1: with prefix `N_`, renaming `a.txt` while `N_a.txt`
already exists leaves the filesystem unchanged and counts a skip. -/
theorem collision_noop_skipped_witness :
    generate_new_name (mkFileRenamer "N_" "" false "" "" false none false)
        "a.txt" 0 1 = .ok "N_a.txt"
    ∧ (⟨"/d", "N_a.txt"⟩ : PPath) ∈ [(⟨"/d", "a.txt"⟩ : PPath), ⟨"/d", "N_a.txt"⟩]
    ∧ processOne (mkFileRenamer "N_" "" false "" "" false none false) 1
        (fun _ => none) ⟨[⟨"/d", "a.txt"⟩, ⟨"/d", "N_a.txt"⟩], 0, 0, 0⟩ 0
        ⟨"/d", "a.txt"⟩
        = ⟨[⟨"/d", "a.txt"⟩, ⟨"/d", "N_a.txt"⟩], 0, 1, 0⟩ :=
  ⟨rfl, by decide,
    collision_noop_skipped (mkFileRenamer "N_" "" false "" "" false none false)
      1 (fun _ => none) ⟨[⟨"/d", "a.txt"⟩, ⟨"/d", "N_a.txt"⟩], 0, 0, 0⟩ 0
      ⟨"/d", "a.txt"⟩ "N_a.txt" rfl (Or.inr (by decide))⟩

/-! ### C6: dry run mutates nothing -/

/-- C6: with `dryRun = true`, `rename_files` performs no filesystem
mutation: the final filesystem equals the initial one, whatever the
directory contents and rename-call outcomes are. -/
theorem dry_run_no_mutation (cfg : Config) (entries : List DirEntry)
    (fs0 : List PPath) (oracle : Nat → Option PyExc) (h : cfg.dry_run = true) :
    (rename_files cfg entries fs0 oracle).2 = fs0 := by
  unfold rename_files
  exact processFrom_dry cfg (candidateFiles cfg entries).length oracle h
    (candidateFiles cfg entries) ⟨fs0, 0, 0, 0⟩ 0

/-- Fixture: dry-run configuration with prefix `N_`. -/
def cfgDry : Config := mkFileRenamer "N_" "" false "" "" false none true

/-- Fixture: the same options with `dry_run = false`. -/
def cfgReal : Config := mkFileRenamer "N_" "" false "" "" false none false

/-- Fixture: a directory listing with files `x.txt` and `y.txt`. -/
def entriesXY : List DirEntry := [⟨⟨"/d", "x.txt"⟩, true⟩, ⟨⟨"/d", "y.txt"⟩, true⟩]

/-- Fixture: the corresponding initial filesystem. -/
def fsXY : List PPath := [⟨"/d", "x.txt"⟩, ⟨"/d", "y.txt"⟩]

/-- Witness for C6: over `x.txt, y.txt` with prefix `N_`, the dry run
reports `renamed = 2` yet leaves the filesystem unchanged, and the
subsequent real run with the same options applies the same mappings
(`x.txt ↦ N_x.txt`, `y.txt ↦ N_y.txt`) with `renamed = 2`. -/
theorem dry_run_no_mutation_witness :
    cfgDry.dry_run = true
    ∧ (rename_files cfgDry entriesXY fsXY (fun _ => none)).2 = fsXY
    ∧ (rename_files cfgDry entriesXY fsXY (fun _ => none)).1 = ⟨2, 2, 0, 0⟩
    ∧ (rename_files cfgReal entriesXY fsXY (fun _ => none)).1 = ⟨2, 2, 0, 0⟩
    ∧ (rename_files cfgReal entriesXY fsXY (fun _ => none)).2
        = [⟨"/d", "N_y.txt"⟩, ⟨"/d", "N_x.txt"⟩] :=
  ⟨rfl, dry_run_no_mutation cfgDry entriesXY fsXY (fun _ => none) rfl,
    rfl, rfl, rfl⟩

/-! ### C3: where per-file failures are counted -/

/-- Fixture: a run in which the rename syscall for the only candidate
raises `OSError` (e.g. permission denied). -/
def renameFailRun : RenameResult × List PPath :=
  rename_files cfgReal [⟨⟨"/d", "x.txt"⟩, true⟩] [⟨"/d", "x.txt"⟩]
    (fun _ => some .osError)

/-- Counterexample to C3 as stated: an unexpected failure of the rename
call (`OSError` raised by `Path.rename`) is counted in the skipped
bucket, not the errors bucket: the run yields
`total = 1, renamed = 0, skipped = 1, errors = 0`. -/
theorem rename_failure_not_in_errors :
    renameFailRun.1 = ⟨1, 0, 1, 0⟩ ∧ renameFailRun.1.errors = 0 :=
  ⟨rfl, rfl⟩

/-- C3 (amended): a failure of the rename call is caught inside
`_rename_file` (which returns `False`) and therefore counted as skipped,
while a failure that escapes name generation is caught by the loop and
counted as an error; in both cases only one counter changes and the
filesystem is untouched, and the loop structure
(`processFrom_cons`) continues with the next file. -/
theorem per_file_failure_handling (cfg : Config) (total : Nat)
    (oracle : Nat → Option PyExc) (st : RunState) (idx : Nat) (p : PPath)
    (new_name : String) (e e' : PyExc) :
    (generate_new_name cfg p.name idx total = .ok new_name →
      p.name ≠ new_name → (⟨p.parent, new_name⟩ : PPath) ∉ st.fs →
      cfg.dry_run = false → oracle idx = some e →
      processOne cfg total oracle st idx p = { st with skipped := st.skipped + 1 })
    ∧ (generate_new_name cfg p.name idx total = .error e' →
      processOne cfg total oracle st idx p = { st with errors := st.errors + 1 }) := by
  constructor
  · intro hgen hname hmem hdry horacle
    have hr : rename_file cfg st.fs p new_name (oracle idx) = (st.fs, false) := by
      unfold rename_file
      rw [horacle, hdry]
      simp [hname, hmem]
    unfold processOne
    rw [hgen]
    dsimp only
    rw [hr]
  · intro hgen
    unfold processOne
    rw [hgen]

/-- Witness for the amended C3: with prefix `N_` and a rename call that
raises `OSError`, the candidate is counted as skipped; with pattern
`"{}"` (whose rendering raises `IndexError`, which escapes name
generation), the candidate is counted as an error. -/
theorem per_file_failure_handling_witness :
    (processOne cfgReal 1 (fun _ => some .osError)
        ⟨[⟨"/d", "x.txt"⟩], 0, 0, 0⟩ 0 ⟨"/d", "x.txt"⟩
      = ⟨[⟨"/d", "x.txt"⟩], 0, 1, 0⟩)
    ∧ (processOne (mkFileRenamer "" "" false "" "{}" false none false) 1
        (fun _ => none) ⟨[⟨"/d", "x.txt"⟩], 0, 0, 0⟩ 0 ⟨"/d", "x.txt"⟩
      = ⟨[⟨"/d", "x.txt"⟩], 0, 0, 1⟩) :=
  ⟨(per_file_failure_handling cfgReal 1 (fun _ => some .osError)
      ⟨[⟨"/d", "x.txt"⟩], 0, 0, 0⟩ 0 ⟨"/d", "x.txt"⟩ "N_x.txt" .osError .osError).1
      rfl (by decide) (by decide) rfl rfl,
    (per_file_failure_handling (mkFileRenamer "" "" false "" "{}" false none false)
      1 (fun _ => none) ⟨[⟨"/d", "x.txt"⟩], 0, 0, 0⟩ 0 ⟨"/d", "x.txt"⟩ ""
      .osError .indexError).2 rfl⟩

/-! ### C4: the default naming formula -/

/-- With a falsy pattern, `_generate_new_name` returns
`prefix ++ stem ++ number-part ++ suffix ++ extension-part` (helper
shared by several results below). -/
theorem generate_default_eq (cfg : Config) (name : String) (idx total : Nat)
    (h : cfg.pattern = "") :
    generate_new_name cfg name idx total =
      .ok (cfg.pre ++ pstem name
        ++ (if cfg.add_number then "_" ++ zeroPad (idx + 1) (toString total).length
            else "")
        ++ cfg.suffix
        ++ (if strOptTruthy cfg.new_ext then "." ++ cfg.new_ext.getD ""
            else psuffix name)) := by
  unfold generate_new_name defaultName
  rw [h]
  simp only [ne_eq, not_true_eq_false, if_false, reduceIte]
  by_cases h1 : cfg.pre = "" <;> by_cases h2 : cfg.add_number
    <;> by_cases h3 : cfg.suffix = ""
    <;> simp [h1, h2, h3, String.append_assoc]

/-- C4: when no pattern applies, the generated name is
`prefix ++ stem ++ (if addNumber: "_" ++ (index+1) zero-padded to the
decimal width of total) ++ suffix`, followed by `.newExtension` if that
option is set and by the original extension (possibly empty) otherwise. -/
theorem default_name_formula (cfg : Config) (name : String) (idx total : Nat)
    (h : cfg.pattern = "") :
    generate_new_name cfg name idx total =
      .ok (cfg.pre ++ pstem name
        ++ (if cfg.add_number then "_" ++ zeroPad (idx + 1) (toString total).length
            else "")
        ++ cfg.suffix
        ++ (if strOptTruthy cfg.new_ext then "." ++ cfg.new_ext.getD ""
            else psuffix name)) :=
  generate_default_eq cfg name idx total h

/-- Fixture: numbering-only configuration. -/
def cfgNum : Config := mkFileRenamer "" "" true "" "" false none false

/-- Witness for C4, including the claim's width examples: `total = 5`
gives 1-digit numbers `_1`/`_5`, `total = 15` gives 2-digit numbers
`_01`/`_15`. -/
theorem default_name_formula_witness :
    cfgNum.pattern = ""
    ∧ generate_new_name cfgNum "x.txt" 0 5 =
        .ok (cfgNum.pre ++ pstem "x.txt"
          ++ (if cfgNum.add_number then "_" ++ zeroPad (0 + 1) (toString 5).length
              else "")
          ++ cfgNum.suffix
          ++ (if strOptTruthy cfgNum.new_ext then "." ++ cfgNum.new_ext.getD ""
              else psuffix "x.txt"))
    ∧ generate_new_name cfgNum "x.txt" 0 5 = .ok "x_1.txt"
    ∧ generate_new_name cfgNum "x.txt" 4 5 = .ok "x_5.txt"
    ∧ generate_new_name cfgNum "x.txt" 0 15 = .ok "x_01.txt"
    ∧ generate_new_name cfgNum "x.txt" 14 15 = .ok "x_15.txt" :=
  ⟨rfl, default_name_formula cfgNum "x.txt" 0 5 rfl, rfl, rfl, rfl, rfl⟩

/-! ### C5: pattern rendering and its failure modes -/

/-- Fixture: a pattern consisting of one automatic (positional)
replacement field. -/
def cfgBadPattern : Config := mkFileRenamer "" "" false "" "{}" false none false

/-- Counterexample to C5 as stated: name generation *can* raise for a
malformed but well-typed pattern: rendering `"{}"` raises `IndexError`
(an automatic field with no positional arguments), which is not caught
by the `except (KeyError, ValueError)` clause and so propagates out of
`_generate_new_name`. -/
theorem pattern_can_raise :
    generate_new_name cfgBadPattern "a.txt" 0 1 = .error .indexError := rfl

/-- C5 (amended): for every truthy pattern, if rendering succeeds, the
rendered text overrides the prefix/suffix/number logic entirely (only
the extension is appended); if rendering fails with `KeyError` or
`ValueError`, the file's name falls back to the default rule; any other
rendering failure (e.g. `IndexError` from a positional field) propagates
out of name generation, where the batch loop catches it. -/
theorem pattern_render_behaviour (cfg : Config) (name : String) (idx total : Nat)
    (hp : cfg.pattern ≠ "") :
    (∀ s, pyFormat cfg.pattern idx (pstem name) total = .ok s →
      generate_new_name cfg name idx total =
        .ok (s ++ (if strOptTruthy cfg.new_ext then "." ++ cfg.new_ext.getD ""
            else psuffix name)))
    ∧ (∀ e, pyFormat cfg.pattern idx (pstem name) total = .error e →
      (e = .keyError ∨ e = .valueError) →
      generate_new_name cfg name idx total =
        .ok (defaultName cfg (pstem name) (psuffix name) idx total))
    ∧ (∀ e, pyFormat cfg.pattern idx (pstem name) total = .error e →
      ¬(e = .keyError ∨ e = .valueError) →
      generate_new_name cfg name idx total = .error e) := by
  refine ⟨fun s hs => ?_, fun e he hk => ?_, fun e he hk => ?_⟩
  · unfold generate_new_name
    rw [if_pos hp, hs]
    by_cases hx : strOptTruthy cfg.new_ext = true <;> simp [hx]
  · unfold generate_new_name
    rw [if_pos hp, he]
    simp [hk]
  · unfold generate_new_name
    rw [if_pos hp, he]
    simp [hk]

/-- Fixture: a pattern referencing an undefined token. -/
def cfgUnknownTok : Config := mkFileRenamer "P_" "" true "" "{unknown}" false none false

/-- Fixture: the documented numbering pattern. -/
def cfgFilePattern : Config := mkFileRenamer "" "" false "" "file_{index:03d}" false none false

/-- Witness for the amended C5: `"file_{index:03d}"` renders and
overrides the default logic; `"{unknown}"` raises `KeyError` and the
file falls back to the default prefix/number rule. -/
theorem pattern_render_behaviour_witness :
    cfgFilePattern.pattern ≠ ""
    ∧ generate_new_name cfgFilePattern "a.txt" 0 15 =
        .ok ("file_000" ++ (if strOptTruthy cfgFilePattern.new_ext
            then "." ++ cfgFilePattern.new_ext.getD "" else psuffix "a.txt"))
    ∧ generate_new_name cfgUnknownTok "a.txt" 0 15 =
        .ok (defaultName cfgUnknownTok (pstem "a.txt") (psuffix "a.txt") 0 15)
    ∧ generate_new_name cfgUnknownTok "a.txt" 0 15 = .ok "P_a_01.txt" :=
  ⟨by decide,
    (pattern_render_behaviour cfgFilePattern "a.txt" 0 15 (by decide)).1
      "file_000" rfl,
    (pattern_render_behaviour cfgUnknownTok "a.txt" 0 15 (by decide)).2.1
      .keyError rfl (Or.inl rfl),
    rfl⟩

/-! ### C7: deterministic ordering -/

/-- Transitivity of lexicographic character-list comparison. -/
theorem charListLt_trans : ∀ {x y z : List Char},
    charListLt x y = true → charListLt y z = true → charListLt x z = true := by
  intro x
  induction x with
  | nil =>
    intro y z h1 h2
    cases y with
    | nil => exact absurd h1 (by simp [charListLt])
    | cons b bs =>
      cases z with
      | nil => exact absurd h2 (by simp [charListLt])
      | cons c cs => simp [charListLt]
  | cons a as ih =>
    intro y z h1 h2
    cases y with
    | nil => exact absurd h1 (by simp [charListLt])
    | cons b bs =>
      cases z with
      | nil => exact absurd h2 (by simp [charListLt])
      | cons c cs =>
        simp only [charListLt] at h1 h2 ⊢
        by_cases hab : a < b
        · by_cases hbc : b < c
          · rw [if_pos (lt_trans hab hbc)]
          · by_cases hcb : c < b
            · rw [if_neg hbc, if_pos hcb] at h2
              exact absurd h2 (by simp)
            · have hbceq : b = c := le_antisymm (not_lt.mp hcb) (not_lt.mp hbc)
              subst hbceq
              rw [if_pos hab]
        · by_cases hba : b < a
          · rw [if_neg hab, if_pos hba] at h1
            exact absurd h1 (by simp)
          · have habeq : a = b := le_antisymm (not_lt.mp hba) (not_lt.mp hab)
            subst habeq
            rw [if_neg hab, if_neg hba] at h1
            by_cases hac : a < c
            · rw [if_pos hac]
            · by_cases hca : c < a
              · rw [if_neg hac, if_pos hca] at h2
                exact absurd h2 (by simp)
              · have haceq : a = c := le_antisymm (not_lt.mp hca) (not_lt.mp hac)
                subst haceq
                rw [if_neg hac, if_neg hca] at h2 ⊢
                exact ih h1 h2

/-- Asymmetry of lexicographic character-list comparison. -/
theorem charListLt_asymm : ∀ {x y : List Char},
    charListLt x y = true → charListLt y x = true → False := by
  intro x
  induction x with
  | nil =>
    intro y h1 h2
    cases y <;> simp [charListLt] at h1 h2
  | cons a as ih =>
    intro y h1 h2
    cases y with
    | nil => simp [charListLt] at h1
    | cons b bs =>
      simp only [charListLt] at h1 h2
      by_cases hab : a < b
      · rw [if_neg (lt_asymm hab), if_pos hab] at h2
        exact absurd h2 (by simp)
      · by_cases hba : b < a
        · rw [if_neg hab, if_pos hba] at h1
          exact absurd h1 (by simp)
        · have habeq : a = b := le_antisymm (not_lt.mp hba) (not_lt.mp hab)
          subst habeq
          rw [if_neg hab, if_neg hab] at h1 h2
          exact ih h1 h2

/-- Trichotomy of lexicographic character-list comparison. -/
theorem charListLt_trichotomy : ∀ (x y : List Char),
    charListLt x y = true ∨ x = y ∨ charListLt y x = true := by
  intro x
  induction x with
  | nil =>
    intro y
    cases y with
    | nil => exact Or.inr (Or.inl rfl)
    | cons b bs => exact Or.inl (by simp [charListLt])
  | cons a as ih =>
    intro y
    cases y with
    | nil => exact Or.inr (Or.inr (by simp [charListLt]))
    | cons b bs =>
      rcases lt_trichotomy a b with h | h | h
      · exact Or.inl (by simp [charListLt, h])
      · subst h
        rcases ih bs with h1 | h1 | h1
        · exact Or.inl (by simp [charListLt, h1])
        · exact Or.inr (Or.inl (by rw [h1]))
        · exact Or.inr (Or.inr (by simp [charListLt, h1]))
      · exact Or.inr (Or.inr (by simp [charListLt, h]))

/-- Transitivity of `strLtB`. -/
theorem strLtB_trans {a b c : String} (h1 : strLtB a b = true)
    (h2 : strLtB b c = true) : strLtB a c = true :=
  charListLt_trans h1 h2

/-- Asymmetry of `strLtB`. -/
theorem strLtB_asymm {a b : String} (h1 : strLtB a b = true)
    (h2 : strLtB b a = true) : False :=
  charListLt_asymm h1 h2

/-- Trichotomy of `strLtB`. -/
theorem strLtB_trichotomy (a b : String) :
    strLtB a b = true ∨ a = b ∨ strLtB b a = true := by
  rcases charListLt_trichotomy a.toList b.toList with h | h | h
  · exact Or.inl h
  · refine Or.inr (Or.inl ?_)
    cases a
    cases b
    exact congrArg String.mk h
  · exact Or.inr (Or.inr h)

/-- Totality of `strLeB`. -/
theorem strLeB_total (a b : String) : strLeB a b = true ∨ strLeB b a = true := by
  rcases strLtB_trichotomy a b with h | h | h
  · exact Or.inl (by simp [strLeB, strLtB] at h ⊢; exact Or.inl h)
  · subst h
    exact Or.inl (by simp [strLeB])
  · exact Or.inr (by simp [strLeB, strLtB] at h ⊢; exact Or.inl h)

/-- Transitivity of `strLeB`. -/
theorem strLeB_trans {a b c : String} (h1 : strLeB a b = true)
    (h2 : strLeB b c = true) : strLeB a c = true := by
  simp only [strLeB, Bool.or_eq_true, beq_iff_eq] at h1 h2 ⊢
  rcases h1 with h1 | h1
  · rcases h2 with h2 | h2
    · exact Or.inl (strLtB_trans h1 h2)
    · subst h2
      exact Or.inl h1
  · subst h1
    exact h2

/-- Antisymmetry of `strLeB`. -/
theorem strLeB_antisymm {a b : String} (h1 : strLeB a b = true)
    (h2 : strLeB b a = true) : a = b := by
  simp only [strLeB, Bool.or_eq_true, beq_iff_eq] at h1 h2
  rcases h1 with h1 | h1
  · rcases h2 with h2 | h2
    · exact (strLtB_asymm h1 h2).elim
    · exact h2.symm
  · exact h1

/-- Totality of the path order. -/
theorem pathLe_total (a b : PPath) : pathLe a b = true ∨ pathLe b a = true := by
  unfold pathLe
  by_cases h : a.parent = b.parent
  · rw [if_pos h, if_pos h.symm]
    exact strLeB_total a.name b.name
  · rw [if_neg h, if_neg (fun hh => h hh.symm)]
    rcases strLtB_trichotomy a.parent b.parent with h1 | h1 | h1
    · exact Or.inl h1
    · exact absurd h1 h
    · exact Or.inr h1

/-- Transitivity of the path order. -/
theorem pathLe_trans {a b c : PPath} (h1 : pathLe a b = true)
    (h2 : pathLe b c = true) : pathLe a c = true := by
  unfold pathLe at h1 h2 ⊢
  by_cases hab : a.parent = b.parent <;> by_cases hbc : b.parent = c.parent
  · rw [if_pos hab] at h1
    rw [if_pos hbc] at h2
    rw [if_pos (hab.trans hbc)]
    exact strLeB_trans h1 h2
  · rw [if_neg hbc] at h2
    have hac : ¬ a.parent = c.parent := fun h => hbc (hab ▸ h)
    rw [if_neg hac, hab]
    exact h2
  · rw [if_neg hab] at h1
    have hac : ¬ a.parent = c.parent := fun h => hab (h.trans hbc.symm)
    rw [if_neg hac, ← hbc]
    exact h1
  · rw [if_neg hab] at h1
    rw [if_neg hbc] at h2
    have hac : ¬ a.parent = c.parent := by
      intro h
      rw [h] at h1
      exact strLtB_asymm h2 h1
    rw [if_neg hac]
    exact strLtB_trans h1 h2

/-- Antisymmetry of the path order. -/
theorem pathLe_antisymm {a b : PPath} (h1 : pathLe a b = true)
    (h2 : pathLe b a = true) : a = b := by
  unfold pathLe at h1 h2
  by_cases hab : a.parent = b.parent
  · rw [if_pos hab] at h1
    rw [if_pos hab.symm] at h2
    have hn := strLeB_antisymm h1 h2
    cases a
    cases b
    simp_all
  · rw [if_neg hab] at h1
    rw [if_neg (fun h => hab h.symm)] at h2
    exact (strLtB_asymm h1 h2).elim

/-- Inserting into a list produces a permutation of consing. -/
theorem insertPath_perm (p : PPath) : ∀ l : List PPath,
    (insertPath p l).Perm (p :: l)
  | [] => List.Perm.refl _
  | q :: rest => by
    unfold insertPath
    by_cases h : pathLe p q
    · rw [if_pos h]
    · rw [if_neg h]
      exact ((insertPath_perm p rest).cons q).trans (List.Perm.swap p q rest)

/-- Sorting produces a permutation of the input. -/
theorem sortPaths_perm (l : List PPath) : (sortPaths l).Perm l := by
  induction l with
  | nil => exact List.Perm.refl _
  | cons p rest ih => exact (insertPath_perm p (sortPaths rest)).trans (ih.cons p)

/-- Members of `insertPath p l` are `p` or members of `l`. -/
theorem mem_insertPath {x p : PPath} {l : List PPath}
    (h : x ∈ insertPath p l) : x = p ∨ x ∈ l := by
  have := (insertPath_perm p l).mem_iff.mp h
  simpa using this

/-- Inserting preserves sortedness. -/
theorem insertPath_pairwise (p : PPath) : ∀ {l : List PPath},
    l.Pairwise (fun a b => pathLe a b = true) →
    (insertPath p l).Pairwise (fun a b => pathLe a b = true) := by
  intro l
  induction l with
  | nil =>
    intro _
    simp [insertPath]
  | cons q rest ih =>
    intro h
    rw [List.pairwise_cons] at h
    obtain ⟨hq, hrest⟩ := h
    unfold insertPath
    by_cases hpq : pathLe p q
    · rw [if_pos hpq]
      refine List.Pairwise.cons ?_ (List.Pairwise.cons hq hrest)
      intro x hx
      rcases List.mem_cons.mp hx with rfl | hx
      · exact hpq
      · exact pathLe_trans hpq (hq x hx)
    · rw [if_neg hpq]
      have hqp : pathLe q p = true := by
        rcases pathLe_total p q with h | h
        · exact absurd h hpq
        · exact h
      refine List.Pairwise.cons ?_ (ih hrest)
      intro x hx
      rcases mem_insertPath hx with rfl | hx
      · exact hqp
      · exact hq x hx

/-- The sort output is sorted. -/
theorem sortPaths_pairwise (l : List PPath) :
    (sortPaths l).Pairwise (fun a b => pathLe a b = true) := by
  induction l with
  | nil => simp [sortPaths]
  | cons p rest ih => exact insertPath_pairwise p ih

/-- Sorting is deterministic on the multiset of inputs: two enumerations
that are permutations of each other sort to the same list. -/
theorem sortPaths_eq_of_perm {l1 l2 : List PPath} (h : l1.Perm l2) :
    sortPaths l1 = sortPaths l2 := by
  haveI : IsAntisymm PPath (fun a b => pathLe a b = true) :=
    ⟨fun a b h1 h2 => pathLe_antisymm h1 h2⟩
  exact List.eq_of_perm_of_sorted
    ((sortPaths_perm l1).trans (h.trans (sortPaths_perm l2).symm))
    (sortPaths_pairwise l1) (sortPaths_pairwise l2)

/-- C7: the candidate list is sorted into a deterministic order before
processing: whatever order the host enumerates a directory in (any
permutation of the same entries), the sorted candidate list — and hence
the 0-based index assigned to each file — is identical. -/
theorem deterministic_ordering (cfg : Config) (e1 e2 : List DirEntry)
    (h : e1.Perm e2) :
    candidateFiles cfg e1 = candidateFiles cfg e2 := by
  unfold candidateFiles
  exact sortPaths_eq_of_perm
    ((h.filter fun e => should_process_file cfg e).map DirEntry.path)

/-- Witness for C7: the two enumeration orders of `x.txt, y.txt` yield
the same sorted candidate list `[x.txt, y.txt]`. -/
theorem deterministic_ordering_witness :
    ([⟨⟨"/d", "x.txt"⟩, true⟩, ⟨⟨"/d", "y.txt"⟩, true⟩] : List DirEntry).Perm
        [⟨⟨"/d", "y.txt"⟩, true⟩, ⟨⟨"/d", "x.txt"⟩, true⟩]
    ∧ candidateFiles cfgNum [⟨⟨"/d", "x.txt"⟩, true⟩, ⟨⟨"/d", "y.txt"⟩, true⟩]
        = candidateFiles cfgNum [⟨⟨"/d", "y.txt"⟩, true⟩, ⟨⟨"/d", "x.txt"⟩, true⟩]
    ∧ candidateFiles cfgNum [⟨⟨"/d", "y.txt"⟩, true⟩, ⟨⟨"/d", "x.txt"⟩, true⟩]
        = [⟨"/d", "x.txt"⟩, ⟨"/d", "y.txt"⟩] :=
  ⟨List.Perm.swap (⟨⟨"/d", "y.txt"⟩, true⟩ : DirEntry) ⟨⟨"/d", "x.txt"⟩, true⟩ [],
    deterministic_ordering cfgNum _ _
      (List.Perm.swap (⟨⟨"/d", "y.txt"⟩, true⟩ : DirEntry) ⟨⟨"/d", "x.txt"⟩, true⟩ []),
    rfl⟩

/-! ### C8: extension filter -/

/-- Characterization of `_should_process_file` under a truthy extension
filter (helper shared by several results). -/
theorem should_process_iff (cfg : Config) (l : List String) (e : DirEntry)
    (hf : cfg.filter_ext = some l) (hl : l ≠ []) :
    should_process_file cfg e = true ↔
      (e.isFile = true ∧ lstripDot (lowerStr (psuffix e.path.name)) ∈ l) := by
  unfold should_process_file
  rw [hf]
  cases hif : e.isFile with
  | false => simp
  | true => simp [listOptTruthy, hl]

/-- `total` counts exactly the entries accepted by
`_should_process_file` (helper). -/
theorem rename_files_total (cfg : Config) (entries : List DirEntry)
    (fs0 : List PPath) (oracle : Nat → Option PyExc) :
    (rename_files cfg entries fs0 oracle).1.total
      = (entries.filter fun e => should_process_file cfg e).length := by
  show (candidateFiles cfg entries).length = _
  unfold candidateFiles
  rw [(sortPaths_perm _).length_eq, List.length_map]

/-- C8: with a non-empty extension filter, an entry is a candidate iff it
is a regular file whose extension — lowercased, leading dot stripped —
is a member of the filter list; and `total` counts only candidates, so
excluded files never contribute to it. -/
theorem extension_filter_correct (cfg : Config) (l : List String) (e : DirEntry)
    (hf : cfg.filter_ext = some l) (hl : l ≠ []) :
    (should_process_file cfg e = true ↔
      (e.isFile = true ∧ lstripDot (lowerStr (psuffix e.path.name)) ∈ l))
    ∧ ∀ (entries : List DirEntry) (fs0 : List PPath) (oracle : Nat → Option PyExc),
      (rename_files cfg entries fs0 oracle).1.total
        = (entries.filter fun e2 => should_process_file cfg e2).length :=
  ⟨should_process_iff cfg l e hf hl,
    fun entries fs0 oracle => rename_files_total cfg entries fs0 oracle⟩

/-- Fixture: the filter `{jpg, png}`. -/
def cfgFilterJP : Config :=
  mkFileRenamer "" "" false "" "" false (some ["jpg", "png"]) false

/-- Fixture: a directory holding `a.jpg, b.txt, c.PNG, d`. -/
def entriesABCD : List DirEntry :=
  [⟨⟨"/d", "a.jpg"⟩, true⟩, ⟨⟨"/d", "b.txt"⟩, true⟩,
    ⟨⟨"/d", "c.PNG"⟩, true⟩, ⟨⟨"/d", "d"⟩, true⟩]

/-- Witness for C8: over `a.jpg, b.txt, c.PNG, d` with filter
`{jpg, png}` the candidates are exactly `a.jpg` and `c.PNG`
(case-insensitive match), `total = 2`, and `b.txt` and `d` are excluded. -/
theorem extension_filter_correct_witness :
    cfgFilterJP.filter_ext = some ["jpg", "png"]
    ∧ (should_process_file cfgFilterJP ⟨⟨"/d", "a.jpg"⟩, true⟩ = true ↔
        ((true : Bool) = true
          ∧ lstripDot (lowerStr (psuffix "a.jpg")) ∈ ["jpg", "png"]))
    ∧ candidateFiles cfgFilterJP entriesABCD = [⟨"/d", "a.jpg"⟩, ⟨"/d", "c.PNG"⟩]
    ∧ (rename_files cfgFilterJP entriesABCD
        [⟨"/d", "a.jpg"⟩, ⟨"/d", "b.txt"⟩, ⟨"/d", "c.PNG"⟩, ⟨"/d", "d"⟩]
        (fun _ => none)).1.total = 2
    ∧ should_process_file cfgFilterJP ⟨⟨"/d", "b.txt"⟩, true⟩ = false
    ∧ should_process_file cfgFilterJP ⟨⟨"/d", "d"⟩, true⟩ = false :=
  ⟨rfl,
    (extension_filter_correct cfgFilterJP ["jpg", "png"] ⟨⟨"/d", "a.jpg"⟩, true⟩
      rfl (by decide)).1,
    rfl, rfl, rfl, rfl⟩

/-! ### C9: the dry-run summary -/

/-- C9 (code behaviour at the failing input): the dry-run branch of
`main` prints `result['total']` as the number of files "expected to be
changed".  With a single candidate whose generated name equals its
current name, nothing would change (`renamed = 0`), yet the printed
dry-run count is `1`; the non-dry-run summary does report
renamed/skipped/errors. -/
theorem dry_run_summary_prints_total :
    dryRunSummaryCount
        (rename_files (mkFileRenamer "" "" false "" "" false none true)
          [⟨⟨"/d", "a.txt"⟩, true⟩] [⟨"/d", "a.txt"⟩] (fun _ => none)).1 = 1
    ∧ (rename_files (mkFileRenamer "" "" false "" "" false none true)
          [⟨⟨"/d", "a.txt"⟩, true⟩] [⟨"/d", "a.txt"⟩] (fun _ => none)).1.renamed = 0
    ∧ ∀ r : RenameResult,
        dryRunSummaryCount r = r.total
        ∧ runSummaryCounts r = (r.renamed, r.skipped, r.errors) :=
  ⟨rfl, rfl, fun _ => ⟨rfl, rfl⟩⟩

/-! ### C10: dotfiles -/

/-- `rfind` on a list not containing the character. -/
theorem rfind_eq_none {c : Char} : ∀ {l : List Char}, c ∉ l → rfind c l = none := by
  intro l
  induction l with
  | nil => intro _; rfl
  | cons a as ih =>
    intro h
    have h1 : c ∉ as := fun hy => h (List.mem_cons_of_mem a hy)
    have h2 : ¬ a = c := fun he => h (by rw [he]; exact List.mem_cons_self c as)
    unfold rfind
    rw [ih h1]
    simp [h2]

/-- Fixture: a filter whose (sole) entry normalizes to the empty string,
as produced e.g. by `--filter ","` (`"".lstrip('.') == ""`). -/
def cfgEmptyFilterEntry : Config :=
  mkFileRenamer "" "" false "" "" false (some [""]) false

/-- Counterexample to C10 as stated: with the extension filter present
(containing the empty string), the extensionless dotfile `.gitignore`
*is* a candidate, because its dot-stripped extension `""` is a member of
the filter list. -/
theorem dotfile_candidate_under_empty_filter_entry :
    cfgEmptyFilterEntry.filter_ext = some [""]
    ∧ should_process_file cfgEmptyFilterEntry ⟨⟨"/d", ".gitignore"⟩, true⟩ = true :=
  ⟨rfl, rfl⟩

/-- C10 (amended): for every filename of length ≥ 2 that begins with a
dot and contains no other dot, the stem is the whole name and the
extension is empty; name generation (with a falsy pattern and no new
extension) preserves the lack of an extension; and under a truthy
extension filter such a file is a candidate iff it is a regular file and
the empty string is a member of the filter list (so never a candidate
for a filter of nonempty extensions). -/
theorem dotfile_handling (name : String) (rest : List Char)
    (hn : name.toList = '.' :: rest) (hnd : '.' ∉ rest) :
    pstem name = name ∧ psuffix name = ""
    ∧ (∀ (cfg : Config) (idx total : Nat), cfg.pattern = "" →
      strOptTruthy cfg.new_ext = false →
      generate_new_name cfg name idx total =
        .ok (cfg.pre ++ name
          ++ (if cfg.add_number then "_" ++ zeroPad (idx + 1) (toString total).length
              else "")
          ++ cfg.suffix))
    ∧ (∀ (cfg : Config) (l : List String) (parent : String) (isF : Bool),
      cfg.filter_ext = some l → l ≠ [] →
      (should_process_file cfg ⟨⟨parent, name⟩, isF⟩ = true ↔
        (isF = true ∧ "" ∈ l))) := by
  have hrf : rfind '.' name.toList = some 0 := by
    rw [hn]
    unfold rfind
    rw [rfind_eq_none hnd]
    simp
  have hps : pstem name = name := by
    unfold pstem
    rw [hrf]
    simp
  have hsx : psuffix name = "" := by
    unfold psuffix
    rw [hrf]
    simp
  refine ⟨hps, hsx, ?_, ?_⟩
  · intro cfg idx total hpat hext
    rw [generate_default_eq cfg name idx total hpat, hps, hsx, hext]
    simp
  · intro cfg l parent isF hf hl
    rw [should_process_iff cfg l ⟨⟨parent, name⟩, isF⟩ hf hl]
    have hred : lstripDot (lowerStr (psuffix name)) = "" := by rw [hsx]; rfl
    rw [hred]

/-- Witness for the amended C10, at `.gitignore`: whole-name stem, empty
extension, extension-free generated name, and the filter membership
criterion under the `{jpg, png}` filter. -/
theorem dotfile_handling_witness :
    pstem ".gitignore" = ".gitignore"
    ∧ psuffix ".gitignore" = ""
    ∧ generate_new_name cfgDry ".gitignore" 0 1 =
        .ok (cfgDry.pre ++ ".gitignore"
          ++ (if cfgDry.add_number then "_" ++ zeroPad (0 + 1) (toString 1).length
              else "")
          ++ cfgDry.suffix)
    ∧ (should_process_file cfgFilterJP ⟨⟨"/d", ".gitignore"⟩, true⟩ = true ↔
        ((true : Bool) = true ∧ "" ∈ ["jpg", "png"]))
    ∧ should_process_file cfgFilterJP ⟨⟨"/d", ".gitignore"⟩, true⟩ = false :=
  ⟨(dotfile_handling ".gitignore" "gitignore".toList rfl (by decide)).1,
    (dotfile_handling ".gitignore" "gitignore".toList rfl (by decide)).2.1,
    (dotfile_handling ".gitignore" "gitignore".toList rfl (by decide)).2.2.1
      cfgDry 0 1 rfl rfl,
    (dotfile_handling ".gitignore" "gitignore".toList rfl (by decide)).2.2.2
      cfgFilterJP ["jpg", "png"] "/d" true rfl (by decide),
    rfl⟩
